/-
Verification of `examples/nlp/machine_translation/translate_ddp.py`.

The script is a single sequential procedure (`translate`) that loads a
translation model, selects a tarred dataset, iterates a DataLoader and
writes detokenized source/translation lines to per-rank files.  We embed
the script's glue logic shallowly: Python strings are Lean `String`s,
tensors are shape/device records, the opaque library objects (model
forward pass, tokenizers, detokenizers) are parameters collected in a
`ModelEnv` record, and Python runtime errors (NameError from an unbound
variable) are modelled with `Option`/`Except`.
-/
import Mathlib

/-- Python `str.endswith(suffix)`. -/
def pyEndsWith (s suffix : String) : Bool :=
  suffix.data.isSuffixOf s.data

/-- Python `str.startswith(p)`. -/
def pyStartsWith (s p : String) : Bool :=
  p.data.isPrefixOf s.data

/-- Python truthiness of a string: non-empty strings are truthy. -/
def pyTruthy (s : String) : Bool :=
  s ≠ ""

/-- Result of the model-loading `if/elif` chain in `translate`
(`translate_ddp.py` lines 73–78): which branch bound `model`. -/
inductive ModelInit where
  | nemoRestore
  | ckptLoad
deriving DecidableEq, Repr

/-- The `if args.model.endswith(".nemo") ... elif args.model.endswith(".ckpt") ...`
chain.  `none` means neither branch fired and `model` stays unbound; no
error is raised at this step. -/
def loadModelStep (modelPath : String) : Option ModelInit :=
  if pyEndsWith modelPath ".nemo" then some ModelInit.nemoRestore
  else if pyEndsWith modelPath ".ckpt" then some ModelInit.ckptLoad
  else none

/-- A Python runtime error. -/
inductive PyError where
  | nameError (name : String)
deriving DecidableEq, Repr

/-- The loading step followed by the next statement of `translate`,
`model.replace_beam_with_sampling(topk=args.topk)` (line 79): reading the
name `model` raises `NameError` exactly when the chain bound nothing. -/
def modelSetup (modelPath : String) (topk : Nat) : Except PyError (ModelInit × Nat) :=
  match loadModelStep modelPath with
  | some m => Except.ok (m, topk)
  | none => Except.error (PyError.nameError "model")

lemma isSuffixOf_eq_true_iff (l₁ l₂ : List Char) :
    l₁.isSuffixOf l₂ = true ↔ l₁ <:+ l₂ := by
  constructor
  · intro h
    exact List.isSuffixOf_iff_suffix.mp h
  · intro h
    exact List.isSuffixOf_iff_suffix.mpr h

lemma not_ends_nemo_and_ckpt (s : String) :
    pyEndsWith s ".nemo" = true → pyEndsWith s ".ckpt" = true → False := by
  intro h1 h2
  rw [pyEndsWith, isSuffixOf_eq_true_iff] at h1 h2
  have hlen : (".nemo".data).length = (".ckpt".data).length := by decide
  have := List.suffix_of_suffix_length_le h1 h2 (le_of_eq hlen)
  have heq : (".nemo".data) = (".ckpt".data) := this.eq_of_length hlen
  exact absurd heq (by decide)

/-- C1: a `--model` path ending neither in ".nemo" nor in ".ckpt" leaves
`model` unbound without an explicit error at the loading step, and the
failure surfaces as a NameError only at the subsequent
`replace_beam_with_sampling` call; every path ending in ".nemo" takes the
`.nemo` restore branch and every path ending in ".ckpt" takes the
checkpoint-load branch. -/
theorem model_loading_by_extension (path : String) (topk : Nat) :
    (pyEndsWith path ".nemo" = true →
      loadModelStep path = some ModelInit.nemoRestore) ∧
    (pyEndsWith path ".ckpt" = true →
      loadModelStep path = some ModelInit.ckptLoad) ∧
    (pyEndsWith path ".nemo" = false → pyEndsWith path ".ckpt" = false →
      loadModelStep path = none ∧
      modelSetup path topk = Except.error (PyError.nameError "model")) := by
  refine ⟨?_, ?_, ?_⟩
  · intro h
    simp [loadModelStep, h]
  · intro h
    have hn : pyEndsWith path ".nemo" = false := by
      cases hcase : pyEndsWith path ".nemo" with
      | false => rfl
      | true => exact absurd (not_ends_nemo_and_ckpt path hcase h) (by simp)
    simp [loadModelStep, hn, h]
  · intro h1 h2
    refine ⟨by simp [loadModelStep, h1, h2], ?_⟩
    simp [modelSetup, loadModelStep, h1, h2]

/-- Witness for C1 at concrete inputs: "a.nemo" restores, "b.ckpt" loads a
checkpoint, and "model.bin" stays unbound until NameError at
`replace_beam_with_sampling`. -/
theorem model_loading_by_extension_witness :
    loadModelStep "a.nemo" = some ModelInit.nemoRestore ∧
    loadModelStep "b.ckpt" = some ModelInit.ckptLoad ∧
    (loadModelStep "model.bin" = none ∧
      modelSetup "model.bin" 500 = Except.error (PyError.nameError "model")) :=
  ⟨(model_loading_by_extension "a.nemo" 500).1 (by decide),
   (model_loading_by_extension "b.ckpt" 500).2.1 (by decide),
   (model_loading_by_extension "model.bin" 500).2.2 (by decide) (by decide)⟩

/-- A tensor, modelled by its shape and the device it lives on
(`none` = CPU, `some r` = accelerator of rank `r`). -/
structure Tensor where
  shape : List Nat
  device : Option Nat
deriving DecidableEq, Repr

/-- `tensor.ndim`. -/
def Tensor.ndim (t : Tensor) : Nat := t.shape.length

/-- `tensor.squeeze(dim=0)`: removes dimension 0 exactly when its size
is 1, otherwise leaves the tensor unchanged (torch semantics). -/
def Tensor.squeezeDim0 (t : Tensor) : Tensor :=
  match t.shape with
  | 1 :: rest => { t with shape := rest }
  | _ => t

/-- `tensor.to(rank)`: move to device `rank`, shape unchanged. -/
def Tensor.toDevice (t : Tensor) (rank : Nat) : Tensor :=
  { t with device := some rank }

/-- Body of `for i in range(len(batch))` (lines 126–129): squeeze dim 0
when `ndim == 3`, then move to the rank's device. -/
def prepTensor (rank : Nat) (t : Tensor) : Tensor :=
  (if t.ndim = 3 then t.squeezeDim0 else t).toDevice rank

/-- `DataLoader(dataset, batch_size=1)` collation: each sample tensor is
stacked along a new leading dimension of size 1 (the batch dimension). -/
def dataLoaderBatch (sample : List Tensor) : List Tensor :=
  sample.map (fun t => { shape := 1 :: t.shape, device := t.device })

lemma dataLoaderBatch_shape (sample : List Tensor) (t : Tensor)
    (h : t ∈ dataLoaderBatch sample) : ∃ s, t.shape = 1 :: s := by
  rcases List.mem_map.mp h with ⟨u, _, rfl⟩
  exact ⟨u.shape, rfl⟩

/-- C9: every tensor of a loaded batch is moved to the rank's device; a
tensor with exactly 3 dimensions first has its leading (batch) dimension
removed by `squeeze(dim=0)`, while tensors of any other dimensionality
keep their shape. -/
theorem batch_squeeze_and_move (rank : Nat) (sample : List Tensor) (t : Tensor)
    (h : t ∈ dataLoaderBatch sample) :
    (prepTensor rank t).device = some rank ∧
    (t.ndim = 3 → (prepTensor rank t).shape = t.shape.tail) ∧
    (t.ndim ≠ 3 → (prepTensor rank t).shape = t.shape) := by
  obtain ⟨s, hs⟩ := dataLoaderBatch_shape sample t h
  refine ⟨rfl, ?_, ?_⟩
  · intro h3
    simp only [prepTensor, h3, if_pos rfl]
    simp [Tensor.squeezeDim0, Tensor.toDevice, hs]
  · intro h3
    simp [prepTensor, h3, Tensor.toDevice]

/-- Witness for C9: a collated batch of a 2-D sample tensor and a 0-D
sample tensor, prepared for rank 1. -/
theorem batch_squeeze_and_move_witness :
    ((⟨[1, 7, 9], none⟩ : Tensor) ∈
        dataLoaderBatch [⟨[7, 9], none⟩, ⟨[], some 0⟩] ∧
      prepTensor 1 ⟨[1, 7, 9], none⟩ = ⟨[7, 9], some 1⟩) ∧
    ((⟨[1], some 0⟩ : Tensor) ∈
        dataLoaderBatch [⟨[7, 9], none⟩, ⟨[], some 0⟩] ∧
      prepTensor 1 ⟨[1], some 0⟩ = ⟨[1], some 1⟩) := by
  have h3 : (⟨[1, 7, 9], none⟩ : Tensor) ∈
      dataLoaderBatch [⟨[7, 9], none⟩, ⟨[], some 0⟩] := by decide
  have h1 : (⟨[1], some 0⟩ : Tensor) ∈
      dataLoaderBatch [⟨[7, 9], none⟩, ⟨[], some 0⟩] := by decide
  have r3 := batch_squeeze_and_move 1 [⟨[7, 9], none⟩, ⟨[], some 0⟩] ⟨[1, 7, 9], none⟩ h3
  have r1 := batch_squeeze_and_move 1 [⟨[7, 9], none⟩, ⟨[], some 0⟩] ⟨[1], some 0⟩ h1
  refine ⟨⟨h3, ?_⟩, ⟨h1, ?_⟩⟩
  · have hsh := r3.2.1 (by decide)
    have hdev := r3.1
    cases hp : prepTensor 1 ⟨[1, 7, 9], none⟩ with
    | mk sh dev =>
        simp [hp] at hsh hdev
        simp [hsh, hdev]
  · have hsh := r1.2.2 (by decide)
    have hdev := r1.1
    cases hp : prepTensor 1 ⟨[1], some 0⟩ with
    | mk sh dev =>
        simp [hp] at hsh hdev
        simp [hsh, hdev]

/-- Which dataset class `translate` constructs (lines 82–103). -/
inductive DatasetKind where
  | tarredTranslation
  | tarredOneSide
deriving DecidableEq, Repr

/-- `if args.twoside: TarredTranslationDataset(...) else: TarredOneSideTranslationDataset(...)`. -/
def selectDataset (twoside : Bool) : DatasetKind :=
  if twoside then DatasetKind.tarredTranslation else DatasetKind.tarredOneSide

/-- Tuple unpacking of a batch (lines 130–133):
`src_ids, src_mask, _, _, _ = batch` when `--twoside` is set (requires
exactly five tensors; only the first two flow downstream) and
`src_ids, src_mask = batch` otherwise (requires exactly two).  `none`
models the ValueError a wrong arity would raise. -/
def unpackBatch (twoside : Bool) (batch : List Tensor) : Option (Tensor × Tensor) :=
  if twoside then
    match batch with
    | [a, b, _, _, _] => some (a, b)
    | _ => none
  else
    match batch with
    | [a, b] => some (a, b)
    | _ => none

/-- C5: with `--twoside` unset the one-sided dataset is constructed and a
batch unpacks into exactly two tensors; with it set the two-sided dataset
is constructed, a batch unpacks into exactly five tensors, and only the
first two are used afterwards. -/
theorem dataset_choice_and_unpack (batch : List Tensor) :
    selectDataset false = DatasetKind.tarredOneSide ∧
    selectDataset true = DatasetKind.tarredTranslation ∧
    (∀ a b : Tensor, unpackBatch false [a, b] = some (a, b)) ∧
    (∀ a b c d e : Tensor, unpackBatch true [a, b, c, d, e] = some (a, b)) ∧
    ((∃ p, unpackBatch false batch = some p) → batch.length = 2) ∧
    ((∃ p, unpackBatch true batch = some p) → batch.length = 5) := by
  refine ⟨rfl, rfl, fun a b => rfl, fun a b c d e => rfl, ?_, ?_⟩
  · rintro ⟨p, hp⟩
    match batch with
    | [] => simp [unpackBatch] at hp
    | [a] => simp [unpackBatch] at hp
    | [a, b] => rfl
    | a :: b :: c :: rest => simp [unpackBatch] at hp
  · rintro ⟨p, hp⟩
    match batch with
    | [] => simp [unpackBatch] at hp
    | [a] => simp [unpackBatch] at hp
    | [a, b] => simp [unpackBatch] at hp
    | [a, b, c] => simp [unpackBatch] at hp
    | [a, b, c, d] => simp [unpackBatch] at hp
    | [a, b, c, d, e] => rfl
    | a :: b :: c :: d :: e :: f :: rest => simp [unpackBatch] at hp

/-- Witness for C5 at a concrete five-tensor batch. -/
theorem dataset_choice_and_unpack_witness :
    unpackBatch true
        [⟨[1], none⟩, ⟨[2], none⟩, ⟨[3], none⟩, ⟨[4], none⟩, ⟨[5], none⟩] =
      some (⟨[1], none⟩, ⟨[2], none⟩) ∧
    ([(⟨[1], none⟩ : Tensor), ⟨[2], none⟩, ⟨[3], none⟩, ⟨[4], none⟩,
        ⟨[5], none⟩].length = 5) :=
  ⟨(dataset_choice_and_unpack []).2.2.2.1 ⟨[1], none⟩ ⟨[2], none⟩ ⟨[3], none⟩
      ⟨[4], none⟩ ⟨[5], none⟩,
   (dataset_choice_and_unpack
        [⟨[1], none⟩, ⟨[2], none⟩, ⟨[3], none⟩, ⟨[4], none⟩, ⟨[5], none⟩]).2.2.2.2.2
      ⟨(⟨[1], none⟩, ⟨[2], none⟩), rfl⟩⟩

/-- Python `str.split()` restricted to spaces: split on runs of spaces,
dropping empty chunks.  Structural recursion on the character list so the
kernel can evaluate it. -/
def pySplitAux : List Char → List Char → List String
  | [], [] => []
  | [], acc => [String.mk acc.reverse]
  | ' ' :: cs, [] => pySplitAux cs []
  | ' ' :: cs, acc => String.mk acc.reverse :: pySplitAux cs []
  | c :: cs, acc => pySplitAux cs (c :: acc)

/-- Python `s.split()`. -/
def pySplit (s : String) : List String := pySplitAux s.data []

/-- A detokenizer object: `MosesDetokenizer(lang=...)` or
`PanguJiebaDetokenizer()`. -/
inductive Detok where
  | moses (lang : String)
  | pangu
deriving DecidableEq, Repr

/-- `if args.target_lang != 'zh': MosesDetokenizer(lang=args.target_lang)
elif args.target_lang == 'zh': PanguJiebaDetokenizer()` (lines 111–114).
`none` would mean neither branch fired and the name stays unbound. -/
def targetDetokenizerSel (tl : String) : Option Detok :=
  if tl ≠ "zh" then some (Detok.moses tl)
  else if tl = "zh" then some Detok.pangu
  else none

/-- Same chain for the source side (lines 119–122). -/
def sourceDetokenizerSel (sl : String) : Option Detok :=
  if sl ≠ "zh" then some (Detok.moses sl)
  else if sl = "zh" then some Detok.pangu
  else none

/-- The guard `if args.target_lang or args.source_lang == 'ja':`
(line 116).  Python parses it as `truthy(target_lang) or
(source_lang == 'ja')`. -/
def spGuard (tl sl : String) : Bool :=
  pyTruthy tl || (sl == "ja")

/-- The opaque library objects `translate` calls into. -/
structure ModelEnv where
  forward : List (List Nat) → List (List Nat)
  decIdsToText : List Nat → String
  encIdsToText : List Nat → String
  mosesDetok : String → List String → String
  panguDetok : List String → String
  spDetok : List String → String

/-- `sp_detokenizer = SentencePieceDetokenizer()` is bound exactly when
the line-116 guard is truthy. -/
def spDetokOpt (env : ModelEnv) (tl sl : String) : Option (List String → String) :=
  if spGuard tl sl then some env.spDetok else none

/-- `detokenizer.detokenize(tokens)`. -/
def applyDetok (env : ModelEnv) (d : Detok) (toks : List String) : String :=
  match d with
  | Detok.moses lang => env.mosesDetok lang toks
  | Detok.pangu => env.panguDetok toks

/-- Body of `for t in translations` (lines 141–146):
`t = model.decoder_tokenizer.ids_to_text(t)`, then if
`args.target_lang == 'ja'` an extra SentencePiece pass
`t = sp_detokenizer.detokenize(t.split())`, then
`translation = target_detokenizer.detokenize(t.split())`.  Reading an
unbound name is `Except.error ()`. -/
def transLineOut (env : ModelEnv) (tl : String)
    (sp : Option (List String → String)) (dtk : Option Detok)
    (ids : List Nat) : Except Unit String :=
  let t1 := env.decIdsToText ids
  match (if tl == "ja" then
          match sp with
          | some f => Except.ok (f (pySplit t1))
          | none => Except.error ()
        else Except.ok t1 : Except Unit String) with
  | Except.error e => Except.error e
  | Except.ok t2 =>
    match dtk with
    | some d => Except.ok (applyDetok env d (pySplit t2))
    | none => Except.error ()

/-- Body of `for o in src_ids` (lines 147–152):
`o = model.encoder_tokenizer.ids_to_text(o)`, then — as written in the
source — the extra SentencePiece pass is guarded by
`args.target_lang == 'ja'` (NOT by `source_lang`), then the source
detokenizer is applied. -/
def sourceLineOut (env : ModelEnv) (tl : String)
    (sp : Option (List String → String)) (dtk : Option Detok)
    (ids : List Nat) : Except Unit String :=
  let o1 := env.encIdsToText ids
  match (if tl == "ja" then
          match sp with
          | some f => Except.ok (f (pySplit o1))
          | none => Except.error ()
        else Except.ok o1 : Except Unit String) with
  | Except.error e => Except.error e
  | Except.ok o2 =>
    match dtk with
    | some d => Except.ok (applyDetok env d (pySplit o2))
    | none => Except.error ()

/-- A `for x in xs: f(x); file.write(...)` loop collecting the written
lines, propagating the first error. -/
def writeLines (f : α → Except Unit String) : List α → Except Unit (List String)
  | [] => Except.ok []
  | x :: xs =>
    match f x with
    | Except.error e => Except.error e
    | Except.ok s =>
      match writeLines f xs with
      | Except.error e => Except.error e
      | Except.ok rest => Except.ok (s :: rest)

/-- Mutable state of the batch loop: `num_translated_sentences`, the lines
written so far to `translations.txt` and `originals.txt`, and the progress
log records `(batch_idx, reported sentence count)`. -/
structure LoopState where
  numTranslated : Nat
  tfLines : List String
  ofLines : List String
  logs : List (Nat × Nat)
deriving DecidableEq, Repr

/-- One iteration of `for batch_idx, batch in enumerate(loader)`
(lines 125–152), already specialised to the unpacked `src_ids` token
sequences: log when `batch_idx % 100 == 0` (before the count is bumped),
bump `num_translated_sentences` by `len(src_ids)`, run the model forward,
write one translation line per output and one source line per input. -/
def runBatch (env : ModelEnv) (tl : String)
    (sp : Option (List String → String)) (tD sD : Option Detok)
    (batchIdx : Nat) (st : LoopState) (srcIds : List (List Nat)) :
    Except Unit LoopState :=
  match writeLines (transLineOut env tl sp tD) (env.forward srcIds) with
  | Except.error e => Except.error e
  | Except.ok ts =>
    match writeLines (sourceLineOut env tl sp sD) srcIds with
    | Except.error e => Except.error e
    | Except.ok os =>
      Except.ok ⟨st.numTranslated + srcIds.length,
                 st.tfLines ++ ts, st.ofLines ++ os,
                 if batchIdx % 100 = 0 then
                   st.logs ++ [(batchIdx, st.numTranslated)] else st.logs⟩

/-- The batch loop from batch index `idx` onwards. -/
def runFrom (env : ModelEnv) (tl : String)
    (sp : Option (List String → String)) (tD sD : Option Detok) :
    Nat → LoopState → List (List (List Nat)) → Except Unit LoopState
  | _, st, [] => Except.ok st
  | idx, st, b :: rest =>
    match runBatch env tl sp tD sD idx st b with
    | Except.error e => Except.error e
    | Except.ok st1 => runFrom env tl sp tD sD (idx + 1) st1 rest

/-- The whole write phase of `translate`: select the detokenizers and the
optional SentencePiece detokenizer from the language codes, then run the
batch loop from index 0 on fresh files and a zero counter. -/
def translateLoop (env : ModelEnv) (tl sl : String)
    (batches : List (List (List Nat))) : Except Unit LoopState :=
  runFrom env tl (spDetokOpt env tl sl) (targetDetokenizerSel tl)
    (sourceDetokenizerSel sl) 0 ⟨0, [], [], []⟩ batches

/-- Total sentence count of a list of batches. -/
def sumLens (bs : List (List (List Nat))) : Nat :=
  (bs.map List.length).sum

/-- The progress records the spec predicts for batches numbered from
`idx` with `num` sentences already counted: one record per batch index
divisible by 100, reporting the count accumulated strictly before that
batch. -/
def expectedLogs (idx num : Nat) (bs : List (List (List Nat))) : List (Nat × Nat) :=
  ((List.range bs.length).filter (fun j => decide ((idx + j) % 100 = 0))).map
    (fun j => (idx + j, num + sumLens (bs.take j)))

/-- C7: the target detokenizer is the Chinese-specific one exactly when
`target_lang == 'zh'` and the generic Moses one otherwise; symmetrically
for the source side; the `if/elif` chain selects exactly one detokenizer
per side for every pair of language codes. -/
theorem detokenizer_selection (tl sl : String) :
    targetDetokenizerSel tl =
      some (if tl = "zh" then Detok.pangu else Detok.moses tl) ∧
    sourceDetokenizerSel sl =
      some (if sl = "zh" then Detok.pangu else Detok.moses sl) := by
  constructor
  · by_cases h : tl = "zh" <;> simp [targetDetokenizerSel, h]
  · by_cases h : sl = "zh" <;> simp [sourceDetokenizerSel, h]

/-- A concrete instantiation of the opaque library objects, used to
evaluate the loop on closed inputs. -/
def testEnv : ModelEnv where
  forward := fun b => b
  decIdsToText := fun _ => "t1 t2"
  encIdsToText := fun _ => "s1 s2"
  mosesDetok := fun lang toks => lang ++ ":" ++ String.intercalate " " toks
  panguDetok := fun toks => String.intercalate "" toks
  spDetok := fun toks => "SP(" ++ String.intercalate "+" toks ++ ")"

/-- C10: for every non-empty `target_lang`, the guard
`args.target_lang or args.source_lang == 'ja'` is truthy whatever the
source language, so `sp_detokenizer` is bound, and neither write-loop
body can fail with an unbound-name error on its `'ja'` branch. -/
theorem sp_detokenizer_always_bound (env : ModelEnv) (tl sl : String)
    (h : tl ≠ "") :
    spGuard tl sl = true ∧
    spDetokOpt env tl sl = some env.spDetok ∧
    (∀ d ids, ∃ s, transLineOut env tl (spDetokOpt env tl sl) (some d) ids =
      Except.ok s) ∧
    (∀ d ids, ∃ s, sourceLineOut env tl (spDetokOpt env tl sl) (some d) ids =
      Except.ok s) := by
  have hg : spGuard tl sl = true := by
    simp [spGuard, pyTruthy, h]
  refine ⟨hg, by simp [spDetokOpt, hg], ?_, ?_⟩
  · intro d ids
    cases hja : (tl == "ja") with
    | false =>
        exact ⟨applyDetok env d (pySplit (env.decIdsToText ids)),
          by simp [transLineOut, hja]⟩
    | true =>
        exact ⟨applyDetok env d (pySplit (env.spDetok (pySplit (env.decIdsToText ids)))),
          by simp [transLineOut, hja, spDetokOpt, hg]⟩
  · intro d ids
    cases hja : (tl == "ja") with
    | false =>
        exact ⟨applyDetok env d (pySplit (env.encIdsToText ids)),
          by simp [sourceLineOut, hja]⟩
    | true =>
        exact ⟨applyDetok env d (pySplit (env.spDetok (pySplit (env.encIdsToText ids)))),
          by simp [sourceLineOut, hja, spDetokOpt, hg]⟩

/-- Witness for C10 with `target_lang = "ja"`, `source_lang = "en"`. -/
theorem sp_detokenizer_always_bound_witness :
    spGuard "ja" "en" = true ∧
    spDetokOpt testEnv "ja" "en" = some testEnv.spDetok :=
  ⟨(sp_detokenizer_always_bound testEnv "ja" "en" (by decide)).1,
   (sp_detokenizer_always_bound testEnv "ja" "en" (by decide)).2.1⟩

/-- C2 (divergence evaluated on the code): the extra SentencePiece pass in
BOTH write loops is guarded by `args.target_lang == 'ja'`.  With
`source_lang = "ja"`, `target_lang = "en"` the source line gets NO extra
pass (first two conjuncts: the produced line differs from the line the
sub-word pass would have produced); with `source_lang = "en"`,
`target_lang = "ja"` the source line DOES get the pass although its
language is not Japanese (fourth conjunct); the translation line behaves
as claimed (last conjunct). -/
theorem source_line_sp_pass_follows_target_lang :
    sourceLineOut testEnv "en" (spDetokOpt testEnv "en" "ja")
        (sourceDetokenizerSel "ja") [0] = Except.ok "ja:s1 s2" ∧
    testEnv.mosesDetok "ja"
        (pySplit (testEnv.spDetok (pySplit (testEnv.encIdsToText [0])))) =
      "ja:SP(s1+s2)" ∧
    ("ja:s1 s2" : String) ≠ "ja:SP(s1+s2)" ∧
    sourceLineOut testEnv "ja" (spDetokOpt testEnv "ja" "en")
        (sourceDetokenizerSel "en") [0] = Except.ok "en:SP(s1+s2)" ∧
    transLineOut testEnv "ja" (spDetokOpt testEnv "ja" "en")
        (targetDetokenizerSel "ja") [0] = Except.ok "ja:SP(t1+t2)" :=
  ⟨rfl, rfl, by decide, rfl, rfl⟩

lemma writeLines_length (f : α → Except Unit String) (l : List α)
    (r : List String) (h : writeLines f l = Except.ok r) :
    r.length = l.length := by
  induction l generalizing r with
  | nil =>
    simp only [writeLines] at h
    injection h with h
    subst h
    rfl
  | cons x xs ih =>
    simp only [writeLines] at h
    cases hf : f x with
    | error e => rw [hf] at h; exact absurd h (by simp)
    | ok s =>
      rw [hf] at h
      cases hw : writeLines f xs with
      | error e => rw [hw] at h; exact absurd h (by simp)
      | ok rest =>
        rw [hw] at h
        injection h with h
        subst h
        simp [ih rest hw]

lemma runBatch_ok (env : ModelEnv) (tl : String)
    (sp : Option (List String → String)) (tD sD : Option Detok) (idx : Nat)
    (st : LoopState) (b : List (List Nat)) (st1 : LoopState)
    (h : runBatch env tl sp tD sD idx st b = Except.ok st1) :
    ∃ ts os,
      writeLines (transLineOut env tl sp tD) (env.forward b) = Except.ok ts ∧
      writeLines (sourceLineOut env tl sp sD) b = Except.ok os ∧
      st1 = ⟨st.numTranslated + b.length, st.tfLines ++ ts, st.ofLines ++ os,
             if idx % 100 = 0 then st.logs ++ [(idx, st.numTranslated)]
             else st.logs⟩ := by
  unfold runBatch at h
  cases hts : writeLines (transLineOut env tl sp tD) (env.forward b) with
  | error e => rw [hts] at h; exact absurd h (by simp)
  | ok ts =>
    rw [hts] at h
    cases hos : writeLines (sourceLineOut env tl sp sD) b with
    | error e => rw [hos] at h; exact absurd h (by simp)
    | ok os =>
      rw [hos] at h
      injection h with h
      exact ⟨ts, os, rfl, rfl, h.symm⟩

lemma sumLens_nil : sumLens [] = 0 := rfl

lemma sumLens_cons (b : List (List Nat)) (rest : List (List (List Nat))) :
    sumLens (b :: rest) = b.length + sumLens rest := by
  simp [sumLens]

lemma expectedLogs_nil (idx num : Nat) : expectedLogs idx num [] = [] := rfl

lemma expectedLogs_cons (idx num : Nat) (b : List (List Nat))
    (rest : List (List (List Nat))) :
    expectedLogs idx num (b :: rest) =
      (if idx % 100 = 0 then [(idx, num)] else []) ++
        expectedLogs (idx + 1) (num + b.length) rest := by
  have hp : ((fun j => decide ((idx + j) % 100 = 0)) ∘ Nat.succ) =
      (fun j => decide (((idx + 1) + j) % 100 = 0)) := by
    funext j
    have hadd : idx + Nat.succ j = idx + 1 + j := by omega
    simp [Function.comp, hadd]
  have hf : ((fun j => (idx + j, num + sumLens ((b :: rest).take j))) ∘ Nat.succ) =
      (fun j => ((idx + 1) + j, (num + b.length) + sumLens (rest.take j))) := by
    funext j
    have hadd : idx + Nat.succ j = idx + 1 + j := by omega
    simp [Function.comp, hadd, Nat.succ_eq_add_one, List.take_succ_cons,
      sumLens_cons, Nat.add_assoc]
  unfold expectedLogs
  rw [List.length_cons, List.range_succ_eq_map, List.filter_cons,
    List.filter_map]
  by_cases hc : idx % 100 = 0
  · rw [if_pos (by simp [hc]), List.map_cons, List.map_map, hp, hf]
    simp [hc, sumLens_nil]
  · rw [if_neg (by simp [hc]), List.map_map, hp, hf]
    simp [hc]

lemma runFrom_ok_inv (env : ModelEnv) (tl : String)
    (sp : Option (List String → String)) (tD sD : Option Detok)
    (bs : List (List (List Nat))) : ∀ (idx : Nat) (st st' : LoopState),
    runFrom env tl sp tD sD idx st bs = Except.ok st' →
    st'.numTranslated = st.numTranslated + sumLens bs ∧
    st'.logs = st.logs ++ expectedLogs idx st.numTranslated bs ∧
    ((∀ b, (env.forward b).length = b.length) →
      st'.tfLines.length = st.tfLines.length + sumLens bs ∧
      st'.ofLines.length = st.ofLines.length + sumLens bs) := by
  induction bs with
  | nil =>
    intro idx st st' h
    simp only [runFrom] at h
    injection h with h
    subst h
    simp [sumLens_nil, expectedLogs_nil]
  | cons b rest ih =>
    intro idx st st' h
    simp only [runFrom] at h
    cases hb : runBatch env tl sp tD sD idx st b with
    | error e => rw [hb] at h; exact absurd h (by simp)
    | ok st1 =>
      rw [hb] at h
      obtain ⟨ts, os, hts, hos, hst1⟩ := runBatch_ok env tl sp tD sD idx st b st1 hb
      obtain ⟨hnum, hlogs, hlen⟩ := ih (idx + 1) st1 st' h
      subst hst1
      refine ⟨?_, ?_, ?_⟩
      · rw [hnum]
        simp [sumLens_cons, Nat.add_assoc]
      · rw [hlogs, expectedLogs_cons]
        by_cases hc : idx % 100 = 0 <;> simp [hc, List.append_assoc]
      · intro hfwd
        obtain ⟨h1, h2⟩ := hlen hfwd
        have lts := writeLines_length _ _ _ hts
        have los := writeLines_length _ _ _ hos
        rw [hfwd] at lts
        constructor
        · rw [h1]
          simp [sumLens_cons, lts, Nat.add_assoc]
        · rw [h2]
          simp [sumLens_cons, los, Nat.add_assoc]

/-- C3: when the write phase of `translate` completes and the model's
forward call returns exactly one output sequence per input sequence, the
number of lines written to `translations.txt` and to `originals.txt` both
equal the final value of `num_translated_sentences`. -/
theorem line_counts_match (env : ModelEnv) (tl sl : String)
    (batches : List (List (List Nat))) (st : LoopState)
    (hfwd : ∀ b, (env.forward b).length = b.length)
    (h : translateLoop env tl sl batches = Except.ok st) :
    st.ofLines.length = st.tfLines.length ∧
    st.tfLines.length = st.numTranslated := by
  obtain ⟨hnum, -, hlen⟩ := runFrom_ok_inv env tl (spDetokOpt env tl sl)
    (targetDetokenizerSel tl) (sourceDetokenizerSel sl) batches 0
    ⟨0, [], [], []⟩ st h
  obtain ⟨h1, h2⟩ := hlen hfwd
  simp only [List.length_nil, Nat.zero_add] at h1 h2 hnum
  rw [h1, h2, hnum]
  exact ⟨rfl, rfl⟩

/-- C6: when the write phase of `translate` completes, the progress log
records are exactly one per batch whose zero-based index is divisible by
100 — so the very first batch always logs — and each record reports the
sentence count accumulated strictly before that batch. -/
theorem progress_log_schedule (env : ModelEnv) (tl sl : String)
    (batches : List (List (List Nat))) (st : LoopState)
    (h : translateLoop env tl sl batches = Except.ok st) :
    st.logs = ((List.range batches.length).filter
        (fun j => decide (j % 100 = 0))).map
      (fun j => (j, sumLens (batches.take j))) := by
  obtain ⟨-, hlogs, -⟩ := runFrom_ok_inv env tl (spDetokOpt env tl sl)
    (targetDetokenizerSel tl) (sourceDetokenizerSel sl) batches 0
    ⟨0, [], [], []⟩ st h
  rw [hlogs]
  simp [expectedLogs]

/-- A concrete two-batch input for evaluating the loop: one batch of two
sentences followed by one batch of one sentence. -/
def bsSmall : List (List (List Nat)) := [[[1], [2]], [[3]]]

/-- The state the loop computes on `bsSmall` with `testEnv`,
`target_lang = "de"`, `source_lang = "en"`. -/
def stSmall : LoopState :=
  ⟨3, ["de:t1 t2", "de:t1 t2", "de:t1 t2"],
   ["en:s1 s2", "en:s1 s2", "en:s1 s2"], [(0, 0)]⟩

/-- Witness for C3: on a concrete run of three sentences across two
batches, both files get exactly three lines and the counter ends at 3. -/
theorem line_counts_match_witness :
    translateLoop testEnv "de" "en" bsSmall = Except.ok stSmall ∧
    (stSmall.ofLines.length = stSmall.tfLines.length ∧
      stSmall.tfLines.length = stSmall.numTranslated) :=
  ⟨rfl, line_counts_match testEnv "de" "en" bsSmall stSmall (fun _ => rfl) rfl⟩

/-- Witness for C6: the same concrete run logs exactly once, at batch
index 0, reporting 0 sentences. -/
theorem progress_log_schedule_witness :
    translateLoop testEnv "de" "en" bsSmall = Except.ok stSmall ∧
    stSmall.logs = ((List.range bsSmall.length).filter
        (fun j => decide (j % 100 = 0))).map
      (fun j => (j, sumLens (bsSmall.take j))) :=
  ⟨rfl, progress_log_schedule testEnv "de" "en" bsSmall stSmall rfl⟩

/-- `open(name, mode)` for a text file, as the content visible to the
handle right after opening, given the file's prior content (a list of
lines): mode `'w'` truncates, mode `'a'` would keep the prior content.
`translate` opens both output files with mode `'w'` (line 124). -/
def openFile (mode : Char) (prior : List String) : List String :=
  if mode = 'w' then [] else prior

/-- `f.write(line + '\n')`: appends one line at the end of the handle's
content. -/
def writeLineTo (content : List String) (line : String) : List String :=
  content ++ [line]

/-- Content of one output file when the `with` block closes: the file is
opened once with mode `'w'` before the batch loop and each line written
during the run is appended in order. -/
def fileContentsAfterRun (prior written : List String) : List String :=
  written.foldl writeLineTo (openFile 'w' prior)

lemma foldl_writeLineTo (written : List String) :
    ∀ acc, written.foldl writeLineTo acc = acc ++ written := by
  induction written with
  | nil => intro acc; simp
  | cons x xs ih =>
    intro acc
    simp only [List.foldl_cons, writeLineTo, ih (acc ++ [x]), List.append_assoc]
    rfl

/-- C4-counterexample: the output files are NOT append-only across runs —
they are opened with mode `'w'`, so content present before the run
("old" here) is discarded rather than preserved. -/
theorem output_files_truncate_counterexample :
    fileContentsAfterRun ["old"] ["a"] = ["a"] ∧
    "old" ∉ fileContentsAfterRun ["old"] ["a"] := by
  constructor
  · rfl
  · intro h
    simp [fileContentsAfterRun, openFile, writeLineTo] at h

/-- C4 (amended): each output file is opened once before the batch loop in
write mode, which truncates any prior content; during the run every write
appends after the previously written lines (the content written so far is
a prefix of the final content), and the final content is exactly the lines
written during the run, in order. -/
theorem output_files_write_mode (prior written : List String) :
    fileContentsAfterRun prior written = written ∧
    (∀ pre suf, written = pre ++ suf →
      fileContentsAfterRun prior pre <+: fileContentsAfterRun prior written) := by
  constructor
  · simp [fileContentsAfterRun, openFile, foldl_writeLineTo]
  · intro pre suf hsplit
    simp only [fileContentsAfterRun, openFile, if_pos rfl, foldl_writeLineTo,
      List.nil_append, hsplit]
    exact List.prefix_append pre suf

/-- Witness for C4 at a concrete prior content and write sequence. -/
theorem output_files_write_mode_witness :
    fileContentsAfterRun ["old"] ["a", "b"] = ["a", "b"] ∧
    fileContentsAfterRun ["old"] ["a"] <+: fileContentsAfterRun ["old"] ["a", "b"] :=
  ⟨(output_files_write_mode ["old"] ["a", "b"]).1,
   (output_files_write_mode ["old"] ["a", "b"]).2 ["a"] ["b"] rfl⟩

/-- Python `os.path.join(a, b)` for POSIX paths. -/
def osPathJoin (a b : String) : String :=
  if pyStartsWith b "/" then b
  else if a = "" then b
  else if pyEndsWith a "/" then a ++ b
  else a ++ "/" ++ b

/-- `result_dir = os.path.join(args.result_dir, f'rank{rank}')`
(line 105). -/
def rankDirPath (result_dir : String) (rank : Nat) : String :=
  osPathJoin result_dir ("rank" ++ Nat.repr rank)

/-- `os.makedirs(path, exist_ok=...)` over a set of existing directories:
creating an existing directory fails unless `exist_ok` is set. -/
def makedirs (existing : List String) (path : String) (exist_ok : Bool) :
    Except Unit (List String) :=
  if existing.contains path then
    (if exist_ok then Except.ok existing else Except.error ())
  else Except.ok (path :: existing)

/-- `originals_file_name = os.path.join(result_dir, 'originals.txt')`
(line 107). -/
def originalsPath (rd : String) (rank : Nat) : String :=
  osPathJoin (rankDirPath rd rank) "originals.txt"

/-- `translations_file_name = os.path.join(result_dir, 'translations.txt')`
(line 108). -/
def translationsPath (rd : String) (rank : Nat) : String :=
  osPathJoin (rankDirPath rd rank) "translations.txt"

lemma digitChar_ne_slash (n : Nat) : Nat.digitChar n ≠ '/' := by
  rcases Nat.lt_or_ge n 16 with h | h
  · interval_cases n <;> decide
  · simp only [Nat.digitChar,
      show n ≠ 0 by omega, show n ≠ 1 by omega, show n ≠ 2 by omega,
      show n ≠ 3 by omega, show n ≠ 4 by omega, show n ≠ 5 by omega,
      show n ≠ 6 by omega, show n ≠ 7 by omega, show n ≠ 8 by omega,
      show n ≠ 9 by omega, show n ≠ 10 by omega, show n ≠ 11 by omega,
      show n ≠ 12 by omega, show n ≠ 13 by omega, show n ≠ 14 by omega,
      show n ≠ 15 by omega, if_false, if_neg]
    decide

lemma toDigitsCore_chars (b : Nat) :
    ∀ (f n : Nat) (ds : List Char) (c : Char),
      c ∈ Nat.toDigitsCore b f n ds → c ∈ ds ∨ ∃ m, c = Nat.digitChar m := by
  intro f
  induction f with
  | zero => intro n ds c h; exact Or.inl h
  | succ f ih =>
    intro n ds c h
    have h' : c ∈ (if n / b = 0 then Nat.digitChar (n % b) :: ds
        else Nat.toDigitsCore b f (n / b) (Nat.digitChar (n % b) :: ds)) := h
    by_cases hz : n / b = 0
    · rw [if_pos hz] at h'
      rcases List.mem_cons.mp h' with h'' | h''
      · exact Or.inr ⟨n % b, h''⟩
      · exact Or.inl h''
    · rw [if_neg hz] at h'
      rcases ih (n / b) (Nat.digitChar (n % b) :: ds) c h' with h'' | h''
      · rcases List.mem_cons.mp h'' with h3 | h3
        · exact Or.inr ⟨n % b, h3⟩
        · exact Or.inl h3
      · exact Or.inr h''

lemma slash_not_mem_repr (n : Nat) : '/' ∉ (Nat.repr n).data := by
  intro hmem
  have hdata : (Nat.repr n).data = Nat.toDigitsCore 10 (n + 1) n [] := rfl
  rw [hdata] at hmem
  rcases toDigitsCore_chars 10 (n + 1) n [] '/' hmem with h | ⟨m, hm⟩
  · exact absurd h (List.not_mem_nil '/')
  · exact absurd hm.symm (digitChar_ne_slash m)

lemma toDigitsCore_length_ge (b : Nat) :
    ∀ (f n : Nat) (ds : List Char),
      ds.length ≤ (Nat.toDigitsCore b f n ds).length := by
  intro f
  induction f with
  | zero => intro n ds; exact Nat.le_refl _
  | succ f ih =>
    intro n ds
    show ds.length ≤ (if n / b = 0 then Nat.digitChar (n % b) :: ds
        else Nat.toDigitsCore b f (n / b) (Nat.digitChar (n % b) :: ds)).length
    by_cases hz : n / b = 0
    · rw [if_pos hz]; simp
    · rw [if_neg hz]
      calc ds.length ≤ (Nat.digitChar (n % b) :: ds).length := by simp
        _ ≤ _ := ih (n / b) (Nat.digitChar (n % b) :: ds)

lemma repr_data_ne_nil (n : Nat) : (Nat.repr n).data ≠ [] := by
  intro hnil
  have hdata : (Nat.repr n).data = Nat.toDigitsCore 10 (n + 1) n [] := rfl
  rw [hdata] at hnil
  have hge : (1 : Nat) ≤ (Nat.toDigitsCore 10 (n + 1) n []).length := by
    show (if n / 10 = 0 then Nat.digitChar (n % 10) :: []
        else Nat.toDigitsCore 10 n (n / 10) (Nat.digitChar (n % 10) :: [])).length ≥ 1
    by_cases hz : n / 10 = 0
    · rw [if_pos hz]; simp
    · rw [if_neg hz]
      calc (1 : Nat) = [Nat.digitChar (n % 10)].length := by simp
        _ ≤ _ := toDigitsCore_length_ge 10 n (n / 10) [Nat.digitChar (n % 10)]
  rw [hnil] at hge
  simp at hge

lemma rankName_not_abs (rank : Nat) :
    pyStartsWith ("rank" ++ Nat.repr rank) "/" = false := by
  unfold pyStartsWith
  rw [String.data_append]
  rfl

lemma rankDirPath_eq (rd : String) (rank : Nat) (h1 : rd ≠ "")
    (h2 : pyEndsWith rd "/" = false) :
    rankDirPath rd rank = rd ++ "/" ++ ("rank" ++ Nat.repr rank) := by
  unfold rankDirPath osPathJoin
  rw [rankName_not_abs, h2]
  simp [h1]

lemma rankDirPath_data (rd : String) (rank : Nat) (h1 : rd ≠ "")
    (h2 : pyEndsWith rd "/" = false) :
    (rankDirPath rd rank).data =
      rd.data ++ '/' :: 'r' :: 'a' :: 'n' :: 'k' :: (Nat.repr rank).data := by
  rw [rankDirPath_eq rd rank h1 h2]
  have hlit : ∀ x : List Char,
      "/".data ++ ("rank".data ++ x) = '/' :: 'r' :: 'a' :: 'n' :: 'k' :: x :=
    fun _ => rfl
  simp [String.data_append, List.append_assoc, hlit]

lemma rankDirPath_ne_empty (rd : String) (rank : Nat) (h1 : rd ≠ "")
    (h2 : pyEndsWith rd "/" = false) : rankDirPath rd rank ≠ "" := by
  intro he
  have hd := congrArg String.data he
  rw [rankDirPath_data rd rank h1 h2] at hd
  have hnil : rd.data ++ '/' :: 'r' :: 'a' :: 'n' :: 'k' :: (Nat.repr rank).data = [] := hd
  have := List.append_eq_nil.mp hnil
  exact absurd this.2 (by simp)

lemma rankDirPath_no_slash_end (rd : String) (rank : Nat) (h1 : rd ≠ "")
    (h2 : pyEndsWith rd "/" = false) :
    pyEndsWith (rankDirPath rd rank) "/" = false := by
  cases hc : pyEndsWith (rankDirPath rd rank) "/" with
  | false => rfl
  | true =>
    exfalso
    rw [pyEndsWith, isSuffixOf_eq_true_iff] at hc
    obtain ⟨t, ht⟩ := hc
    have e1 : (rankDirPath rd rank).data.getLast? = some '/' := by
      rw [← ht]
      exact List.getLast?_concat t
    cases hr : (Nat.repr rank).data.getLast? with
    | none => exact repr_data_ne_nil rank (List.getLast?_eq_none_iff.mp hr)
    | some c =>
      have hcm : c ∈ (Nat.repr rank).data := List.mem_of_getLast?_eq_some hr
      have e2 : (rankDirPath rd rank).data.getLast? = some c := by
        rw [rankDirPath_data rd rank h1 h2, List.getLast?_append]
        have hmid : ('/' :: 'r' :: 'a' :: 'n' :: 'k' :: (Nat.repr rank).data).getLast?
            = some c := by
          have hmk : '/' :: 'r' :: 'a' :: 'n' :: 'k' :: (Nat.repr rank).data
              = ['/', 'r', 'a', 'n', 'k'] ++ (Nat.repr rank).data := rfl
          rw [hmk, List.getLast?_append, hr]
          rfl
        rw [hmid]
        rfl
      rw [e1] at e2
      injection e2 with e2
      rw [← e2] at hcm
      exact slash_not_mem_repr rank hcm

/-- C8: for every rank and (well-formed, non-empty, no trailing separator)
result directory, the rank's output directory is exactly
`result_dir/rank<N>`, the two output files are created inside it, and
`os.makedirs(..., exist_ok=True)` succeeds whether or not the directory
already exists (creating it when absent). -/
theorem rank_output_dir (rd : String) (rank : Nat) (existing : List String)
    (h1 : rd ≠ "") (h2 : pyEndsWith rd "/" = false) :
    rankDirPath rd rank = rd ++ "/" ++ ("rank" ++ Nat.repr rank) ∧
    originalsPath rd rank = rankDirPath rd rank ++ "/" ++ "originals.txt" ∧
    translationsPath rd rank = rankDirPath rd rank ++ "/" ++ "translations.txt" ∧
    makedirs existing (rankDirPath rd rank) true =
      Except.ok (if existing.contains (rankDirPath rd rank) then existing
                 else rankDirPath rd rank :: existing) := by
  refine ⟨rankDirPath_eq rd rank h1 h2, ?_, ?_, ?_⟩
  · unfold originalsPath osPathJoin
    rw [show pyStartsWith "originals.txt" "/" = false from rfl,
      rankDirPath_no_slash_end rd rank h1 h2]
    simp [rankDirPath_ne_empty rd rank h1 h2]
  · unfold translationsPath osPathJoin
    rw [show pyStartsWith "translations.txt" "/" = false from rfl,
      rankDirPath_no_slash_end rd rank h1 h2]
    simp [rankDirPath_ne_empty rd rank h1 h2]
  · unfold makedirs
    cases hc : existing.contains (rankDirPath rd rank) <;> simp [hc]

/-- Witness for C8 with `result_dir = "/res"`, rank 3, no pre-existing
directories. -/
theorem rank_output_dir_witness :
    rankDirPath "/res" 3 = "/res" ++ "/" ++ ("rank" ++ Nat.repr 3) ∧
    originalsPath "/res" 3 = rankDirPath "/res" 3 ++ "/" ++ "originals.txt" ∧
    translationsPath "/res" 3 = rankDirPath "/res" 3 ++ "/" ++ "translations.txt" ∧
    makedirs [] (rankDirPath "/res" 3) true =
      Except.ok (if List.contains [] (rankDirPath "/res" 3) then []
                 else [rankDirPath "/res" 3]) :=
  rank_output_dir "/res" 3 [] (by decide) (by decide)
